import Mathlib

/-!
Verification development for the Product-Launch-Planner dashboard
(`src/Daniru`).  The pandas pipeline is shallowly embedded: a dataframe is a
list of column names together with a list of rows, a cell is an optional
value (`none` models a pandas null/NaN/NaT), and each cleaning, filtering and
aggregation step of `utils.py` / `app.py` / `apple_ratings.py` is translated
into an executable Lean function.
-/

/-- Value held by a non-null dataframe cell: a string, a (rational) number, a
calendar date, or a boolean. -/
inductive Val
  | str (s : String)
  | num (q : ℚ)
  | date (y m d : Nat)
  | boolv (b : Bool)
  deriving DecidableEq

/-- A dataframe cell; `none` models a pandas null (NaN/NaT/None). -/
abbrev Cell := Option Val

/-- A dataframe: named columns and a list of rows, each row a list of cells
aligned positionally with the column names. -/
structure DF where
  cols : List String
  rows : List (List Cell)
  deriving DecidableEq

/-- A dataframe is well-formed (rectangular) when every row has exactly one
cell per column, as is the case for any table parsed from a CSV file. -/
def DF.Wf (df : DF) : Prop := ∀ r ∈ df.rows, r.length = df.cols.length

/-- Cell of row `r` at column position `i`; out-of-range reads as null. -/
def cellAt (r : List Cell) (i : Nat) : Cell := r.getD i none

/-- Position of the first column named `name` (pandas column lookup). -/
def idxOf? (name : String) : List String → Option Nat
  | [] => none
  | c :: cs => if c = name then some 0 else (idxOf? name cs).map (· + 1)

/-- The values of the first column named `name`, or `[]` if absent. -/
def getColumn (df : DF) (name : String) : List Cell :=
  match idxOf? name df.cols with
  | some i => df.rows.map (fun r => cellAt r i)
  | none => []

/-- `df.drop_duplicates()` keeps the first occurrence of each distinct row:
`seen` accumulates the rows already emitted. -/
def dedupFirstAux {α : Type} [DecidableEq α] (seen : List α) : List α → List α
  | [] => []
  | a :: l =>
    if a ∈ seen then dedupFirstAux seen l
    else a :: dedupFirstAux (a :: seen) l

/-- Order-preserving deduplication keeping first occurrences, as
`pandas.DataFrame.drop_duplicates` does. -/
def dedupFirst {α : Type} [DecidableEq α] (l : List α) : List α :=
  dedupFirstAux [] l

/-- The row-deduplication stage of the cleaning pipeline
(`df = df.drop_duplicates()`). -/
def drop_duplicates (df : DF) : DF := ⟨df.cols, dedupFirst df.rows⟩

/-- Number of null cells of column position `i` (`df.isna().sum()` for that
column). -/
def nullCount (rows : List (List Cell)) (i : Nat) : Nat :=
  (rows.filter (fun r => cellAt r i = none)).length

/-- Keep the entries of `xs` whose positional mask bit is `true`
(`df.loc[:, mask]`). -/
def selectMask {α : Type} : List Bool → List α → List α
  | _, [] => []
  | [], _ :: _ => []
  | b :: bs, x :: xs => if b then x :: selectMask bs xs else selectMask bs xs

/-- The column-keep mask of the sparse-column drop:
`df.isna().sum() <= 0.5 * df.shape[0]`, column by column.  For natural
numbers `cnt ≤ 0.5 * n` is exactly `2 * cnt ≤ n`. -/
def keepMask (df : DF) : List Bool :=
  (List.range df.cols.length).map
    (fun i => decide (2 * nullCount df.rows i ≤ df.rows.length))

/-- The sparse-column drop stage
(`df = df.loc[:, df.isna().sum() <= thresh]` with `thresh = 0.5 * df.shape[0]`). -/
def dropSparseCols (df : DF) : DF :=
  ⟨selectMask (keepMask df) df.cols, df.rows.map (selectMask (keepMask df))⟩

/-- Accumulate a decimal digit sequence into a natural number; any non-digit
character fails the parse. -/
def parseNatAux : List Char → Nat → Option Nat
  | [], acc => some acc
  | c :: cs, acc =>
    if c.isDigit then parseNatAux cs (acc * 10 + (c.toNat - 48)) else none

/-- Parse a non-empty string of decimal digits. -/
def parseNatChars : List Char → Option Nat
  | [] => none
  | c :: cs => parseNatAux (c :: cs) 0

/-- Parse a decimal string, the model of what `pd.to_numeric` accepts from a
string cell. -/
def parseNum? (s : String) : Option ℚ := (parseNatChars s.data).map (fun n => (n : ℚ))

/-- `pd.to_numeric(v, errors="coerce")` on a single non-null value: numbers
pass through, parseable strings become their numeric value, booleans become
0/1, everything else coerces to null. -/
def toNumericVal : Val → Option ℚ
  | .num q => some q
  | .str s => parseNum? s
  | .boolv b => some (if b then 1 else 0)
  | .date _ _ _ => none

/-- `pd.to_numeric(c, errors="coerce")` on a cell: nulls stay null,
unparseable values become null. -/
def toNumericCell (c : Cell) : Cell :=
  c.bind (fun v => (toNumericVal v).map Val.num)

/-- Split a character list on the dash character. -/
def splitDash : List Char → List (List Char)
  | [] => [[]]
  | c :: cs =>
    if c = '-' then [] :: splitDash cs
    else
      match splitDash cs with
      | [] => [[c]]
      | p :: ps => (c :: p) :: ps

/-- Parse a `YYYY-MM-DD` string, the model of what `pd.to_datetime` accepts
from a string cell. -/
def parseDate? (s : String) : Option Val :=
  match splitDash s.data with
  | [y, m, d] =>
    match parseNatChars y, parseNatChars m, parseNatChars d with
    | some yn, some mn, some dn =>
      if 1 ≤ mn ∧ mn ≤ 12 ∧ 1 ≤ dn ∧ dn ≤ 31 then some (.date yn mn dn) else none
    | _, _, _ => none
  | _ => none

/-- `pd.to_datetime(c, errors="coerce")` on a cell: dates pass through,
parseable strings become dates, everything else coerces to NaT. -/
def toDateCell (c : Cell) : Cell :=
  c.bind (fun v =>
    match v with
    | .date y m d => some (.date y m d)
    | .str s => parseDate? s
    | _ => none)

/-- `Series.fillna(v)`: replace a null cell by `v`, keep any other cell. -/
def fillCell (v : Val) (c : Cell) : Cell :=
  match c with
  | none => some v
  | some w => some w

/-- Apply `f` to the cells of every column named `name` of a row
(column assignment `df[name] = f(df[name])`). -/
def mapRowBy (name : String) (f : Cell → Cell) : List String → List Cell → List Cell
  | _, [] => []
  | [], r => r
  | c :: cs, x :: xs => (if c = name then f x else x) :: mapRowBy name f cs xs

/-- `if name in df.columns: df[name] = f(df[name])` — the guarded column
transformations of `load_and_clean_data`. -/
def mapCol (name : String) (f : Cell → Cell) (df : DF) : DF :=
  match idxOf? name df.cols with
  | some _ => ⟨df.cols, df.rows.map (mapRowBy name f df.cols)⟩
  | none => df

/-- The type-coercion stage of `load_and_clean_data`: `Purchase_Date` to
datetime, then `Market_Price`, `Purchase_Amount` and `Rating` to numeric,
each guarded by column presence and coercing failures to null. -/
def coerceSteps (df : DF) : DF :=
  mapCol "Rating" toNumericCell
    (mapCol "Purchase_Amount" toNumericCell
      (mapCol "Market_Price" toNumericCell
        (mapCol "Purchase_Date" toDateCell df)))

/-- The fill stage: `df["Purchase_Amount"] = df["Purchase_Amount"].fillna(1)`,
guarded by column presence. -/
def fillStep (df : DF) : DF := mapCol "Purchase_Amount" (fillCell (Val.num 1)) df

/-- The full cleaning pipeline of `load_and_clean_data` (and of
`load_apple_data` in `app.py`): drop duplicate rows, drop sparse columns,
coerce the four typed columns, fill null purchase amounts with 1. -/
def clean_df (df : DF) : DF := fillStep (coerceSteps (dropSparseCols (drop_duplicates df)))

/-- Season labelling of `create_seasonal_analysis` (`utils.py`) and of the
Market-Insights page (`app.py`), translated branch by branch from
`label_season`. -/
def label_season (m d : Nat) : String :=
  if m = 1 ∧ d ≤ 7 then "New Year"
  else if m = 12 ∧ d ≥ 20 then "Christmas"
  else if (m = 8 ∨ m = 9) ∧ (m = 8 ∨ (m = 9 ∧ d ≤ 15)) then "Back-to-School"
  else "Other"

/-- C1: Season labelling is a pure deterministic function of (month, day):
"New Year" exactly for January 1–7, "Christmas" exactly for December 20 and
later, "Back-to-School" exactly for all of August and September 1–15, and
"Other" exactly otherwise; in particular (1,3) ↦ "New Year", (12,25) ↦
"Christmas", (8,20) ↦ "Back-to-School", (9,20) ↦ "Other", (6,1) ↦ "Other". -/
theorem label_season_spec (m d : Nat) :
    (label_season m d = "New Year" ↔ m = 1 ∧ d ≤ 7) ∧
    (label_season m d = "Christmas" ↔ m = 12 ∧ 20 ≤ d) ∧
    (label_season m d = "Back-to-School" ↔ m = 8 ∨ (m = 9 ∧ d ≤ 15)) ∧
    (label_season m d = "Other" ↔
      ¬(m = 1 ∧ d ≤ 7) ∧ ¬(m = 12 ∧ 20 ≤ d) ∧ ¬(m = 8 ∨ (m = 9 ∧ d ≤ 15))) ∧
    label_season 1 3 = "New Year" ∧ label_season 12 25 = "Christmas" ∧
    label_season 8 20 = "Back-to-School" ∧ label_season 9 20 = "Other" ∧
    label_season 6 1 = "Other" := by
  refine ⟨?_, ?_, ?_, ?_, by decide, by decide, by decide, by decide, by decide⟩ <;>
    · unfold label_season
      split_ifs with h1 h2 h3 <;> simp_all <;> omega

section DedupLemmas

variable {α : Type} [DecidableEq α]

theorem mem_of_mem_dedupFirstAux {seen : List α} {l : List α} {x : α}
    (h : x ∈ dedupFirstAux seen l) : x ∈ l := by
  induction l generalizing seen with
  | nil => simp [dedupFirstAux] at h
  | cons a l ih =>
    by_cases ha : a ∈ seen
    · simp only [dedupFirstAux, if_pos ha] at h
      exact List.mem_cons_of_mem _ (ih h)
    · simp only [dedupFirstAux, if_neg ha, List.mem_cons] at h
      rcases h with h | h
      · exact h ▸ List.mem_cons_self _ _
      · exact List.mem_cons_of_mem _ (ih h)

theorem dedupFirstAux_nodup (seen : List α) (l : List α) :
    (dedupFirstAux seen l).Nodup ∧ ∀ x ∈ dedupFirstAux seen l, x ∉ seen := by
  induction l generalizing seen with
  | nil => simp [dedupFirstAux]
  | cons a l ih =>
    by_cases ha : a ∈ seen
    · simpa [dedupFirstAux, if_pos ha] using ih seen
    · have ih2 := ih (a :: seen)
      refine ⟨?_, ?_⟩
      · simp only [dedupFirstAux, if_neg ha, List.nodup_cons]
        refine ⟨fun hmem => ?_, ih2.1⟩
        have := ih2.2 a hmem
        simp at this
      · intro x hx
        simp only [dedupFirstAux, if_neg ha, List.mem_cons] at hx
        rcases hx with rfl | hx
        · exact ha
        · have := ih2.2 x hx
          simp at this
          exact this.2

theorem dedupFirstAux_eq_self {seen : List α} {l : List α}
    (hd : l.Nodup) (hs : ∀ x ∈ l, x ∉ seen) : dedupFirstAux seen l = l := by
  induction l generalizing seen with
  | nil => rfl
  | cons a l ih =>
    have ha : a ∉ seen := hs a (List.mem_cons_self _ _)
    simp only [dedupFirstAux, if_neg ha]
    congr 1
    refine ih (List.Nodup.of_cons hd) ?_
    intro x hx
    simp only [List.mem_cons, not_or]
    have hne : x ≠ a := by
      rintro rfl
      exact (List.nodup_cons.mp hd).1 hx
    exact ⟨hne, hs x (List.mem_cons_of_mem _ hx)⟩

theorem dedupFirst_idem (l : List α) : dedupFirst (dedupFirst l) = dedupFirst l :=
  dedupFirstAux_eq_self (dedupFirstAux_nodup [] l).1 (by simp)

end DedupLemmas

/-- C4 amended: the row-deduplication stage of the cleaning pipeline is
idempotent — re-running `drop_duplicates` on an already-deduplicated table
changes nothing. -/
theorem drop_duplicates_idempotent (df : DF) :
    drop_duplicates (drop_duplicates df) = drop_duplicates df := by
  simp [drop_duplicates, dedupFirst_idem]

/-- A two-row table with a single `Market_Price` column holding two distinct
unparseable strings: the first clean keeps both rows, but numeric coercion
turns both into null, so a second clean deduplicates them. -/
def dfCoerceCollapse : DF :=
  ⟨["Market_Price"], [[some (Val.str "abc")], [some (Val.str "xyz")]]⟩

/-- C4 counterexample: the full cleaning pipeline is not idempotent — on
`dfCoerceCollapse`, cleaning an already-cleaned table removes a row, because
type coercion introduced nulls that made the two rows exact duplicates. -/
theorem clean_df_not_idempotent :
    clean_df (clean_df dfCoerceCollapse) ≠ clean_df dfCoerceCollapse := by
  decide

theorem mem_selectMask_iff {α : Type} {x : α} (mask : List Bool) (xs : List α) :
    x ∈ selectMask mask xs ↔ ∃ i : Nat, xs[i]? = some x ∧ mask[i]? = some true := by
  induction xs generalizing mask with
  | nil => cases mask <;> simp [selectMask]
  | cons y ys ih =>
    cases mask with
    | nil => simp [selectMask]
    | cons b bs =>
      constructor
      · intro hmem
        cases b with
        | true =>
          simp only [selectMask, if_true] at hmem
          rcases List.mem_cons.mp hmem with rfl | h
          · exact ⟨0, by simp, by simp⟩
          · obtain ⟨j, hj1, hj2⟩ := (ih bs).mp h
            exact ⟨j + 1, by simpa, by simpa⟩
        | false =>
          simp only [selectMask, Bool.false_eq_true, if_false] at hmem
          obtain ⟨j, hj1, hj2⟩ := (ih bs).mp hmem
          exact ⟨j + 1, by simpa, by simpa⟩
      · rintro ⟨i, hi1, hi2⟩
        cases i with
        | zero =>
          simp only [List.getElem?_cons_zero, Option.some_inj] at hi1 hi2
          subst hi1
          simp [selectMask, hi2]
        | succ j =>
          simp only [List.getElem?_cons_succ] at hi1 hi2
          have hmem := (ih bs).mpr ⟨j, hi1, hi2⟩
          cases b <;> simp [selectMask, hmem]

theorem mapCol_cols (name : String) (f : Cell → Cell) (df : DF) :
    (mapCol name f df).cols = df.cols := by
  cases h : idxOf? name df.cols <;> simp [mapCol, h]

theorem clean_df_cols (df : DF) :
    (clean_df df).cols = selectMask (keepMask (drop_duplicates df)) df.cols := by
  simp [clean_df, fillStep, coerceSteps, mapCol_cols, dropSparseCols, drop_duplicates]

theorem keepMask_getElem? (df : DF) (i : Nat) (hi : i < df.cols.length) :
    (keepMask df)[i]? = some (decide (2 * nullCount df.rows i ≤ df.rows.length)) := by
  simp [keepMask, List.getElem?_range, hi]

/-- C2: a column of the (deduplicated) table survives cleaning exactly when
its null count is at most half the deduplicated row count, and consequently
every column of the cleaned table has a null count of at most half the row
count, as measured at the sparse-column-drop step. -/
theorem sparse_columns_dropped_iff (df : DF) (c : String) (i : Nat)
    (hnd : df.cols.Nodup) (hi : df.cols[i]? = some c) :
    (c ∈ (clean_df df).cols ↔
      2 * nullCount (dedupFirst df.rows) i ≤ (dedupFirst df.rows).length) ∧
    (∀ c2 ∈ (clean_df df).cols, ∃ j, df.cols[j]? = some c2 ∧
      2 * nullCount (dedupFirst df.rows) j ≤ (dedupFirst df.rows).length) := by
  have hcols : (clean_df df).cols = selectMask (keepMask (drop_duplicates df)) df.cols :=
    clean_df_cols df
  have hdcols : (drop_duplicates df).cols = df.cols := rfl
  have hdrows : (drop_duplicates df).rows = dedupFirst df.rows := rfl
  constructor
  · constructor
    · intro hmem
      rw [hcols] at hmem
      obtain ⟨j, hj1, hj2⟩ := (mem_selectMask_iff _ _).mp hmem
      have hilt : i < df.cols.length := by
        rcases List.getElem?_eq_some_iff.mp hi with ⟨h, _⟩
        exact h
      have hij : i = j := by
        apply List.getElem?_inj hilt hnd
        rw [hi, hj1]
      subst hij
      rw [keepMask_getElem? _ _ (by simpa [drop_duplicates] using hilt)] at hj2
      simp only [hdcols, hdrows, Option.some_inj] at hj2
      exact of_decide_eq_true hj2
    · intro hle
      rw [hcols]
      refine (mem_selectMask_iff _ _).mpr ⟨i, hi, ?_⟩
      have hilt : i < df.cols.length := by
        rcases List.getElem?_eq_some_iff.mp hi with ⟨h, _⟩
        exact h
      rw [keepMask_getElem? _ _ (by simpa [drop_duplicates] using hilt)]
      simp only [hdcols, hdrows, Option.some_inj]
      exact decide_eq_true hle
  · intro c2 hc2
    rw [hcols] at hc2
    obtain ⟨j, hj1, hj2⟩ := (mem_selectMask_iff _ _).mp hc2
    have hjlt : j < df.cols.length := by
      rcases List.getElem?_eq_some_iff.mp hj1 with ⟨h, _⟩
      exact h
    refine ⟨j, hj1, ?_⟩
    rw [keepMask_getElem? _ _ (by simpa [drop_duplicates] using hjlt)] at hj2
    simp only [hdcols, hdrows, Option.some_inj] at hj2
    exact of_decide_eq_true hj2

/-- A table with one dense column `A` and one column `B` that is null in both
of its two (distinct) rows. -/
def dfSparse : DF :=
  ⟨["A", "B"], [[some (Val.str "x"), none], [some (Val.str "y"), none]]⟩

/-- C2 witness: on `dfSparse`, column `B` (null in 2 of 2 deduplicated rows)
is dropped by cleaning, per the characterization. -/
theorem sparse_columns_dropped_iff_witness :
    ("B" ∈ (clean_df dfSparse).cols ↔
      2 * nullCount (dedupFirst dfSparse.rows) 1 ≤ (dedupFirst dfSparse.rows).length) ∧
    (∀ c2 ∈ (clean_df dfSparse).cols, ∃ j, dfSparse.cols[j]? = some c2 ∧
      2 * nullCount (dedupFirst dfSparse.rows) j ≤ (dedupFirst dfSparse.rows).length) :=
  sparse_columns_dropped_iff dfSparse "B" 1 (by decide) (by decide)

theorem idxOf?_eq_none_iff (name : String) (cols : List String) :
    idxOf? name cols = none ↔ name ∉ cols := by
  induction cols with
  | nil => simp [idxOf?]
  | cons c cs ih =>
    by_cases hc : c = name
    · subst hc
      simp [idxOf?]
    · simp only [idxOf?, if_neg hc, Option.map_eq_none', List.mem_cons, not_or, ih]
      constructor
      · intro h
        exact ⟨fun he => hc he.symm, h⟩
      · intro h
        exact h.2

theorem idxOf?_isSome_of_mem {name : String} {cols : List String} (h : name ∈ cols) :
    ∃ i, idxOf? name cols = some i := by
  rcases ho : idxOf? name cols with _ | i
  · exact absurd h ((idxOf?_eq_none_iff name cols).mp ho)
  · exact ⟨i, rfl⟩

theorem idxOf?_getElem {name : String} {cols : List String} {i : Nat}
    (h : idxOf? name cols = some i) : cols[i]? = some name := by
  induction cols generalizing i with
  | nil => simp [idxOf?] at h
  | cons c cs ih =>
    simp only [idxOf?] at h
    split at h
    · rename_i hc
      injection h with h2
      subst h2
      subst hc
      simp
    · rw [Option.map_eq_some'] at h
      obtain ⟨j, hj, rfl⟩ := h
      simpa using ih hj

theorem idxOf?_lt_length {name : String} {cols : List String} {i : Nat}
    (h : idxOf? name cols = some i) : i < cols.length :=
  (List.getElem?_eq_some_iff.mp (idxOf?_getElem h)).1

theorem mapRowBy_length (name : String) (f : Cell → Cell) :
    ∀ (cols : List String) (r : List Cell), (mapRowBy name f cols r).length = r.length := by
  intro cols
  induction cols with
  | nil => intro r; cases r <;> rfl
  | cons c cs ih =>
    intro r
    cases r with
    | nil => rfl
    | cons x xs => simp [mapRowBy, ih]

theorem cellAt_mapRowBy (name : String) (f : Cell → Cell) :
    ∀ (cols : List String) (r : List Cell) (i : Nat),
      r.length = cols.length → i < cols.length →
      cellAt (mapRowBy name f cols r) i =
        (if cols[i]? = some name then f (cellAt r i) else cellAt r i) := by
  intro cols
  induction cols with
  | nil =>
    intro r i _ hi
    exact absurd hi (by simp)
  | cons c cs ih =>
    intro r i hlen hi
    cases r with
    | nil => simp at hlen
    | cons x xs =>
      cases i with
      | zero =>
        by_cases hc : c = name
        · subst hc
          simp [mapRowBy, cellAt]
        · simp [mapRowBy, cellAt, hc]
      | succ j =>
        have hlen' : xs.length = cs.length := by simpa using hlen
        have hj : j < cs.length := by simpa using hi
        simpa [mapRowBy, cellAt] using ih xs j hlen' hj

theorem wf_drop_duplicates {df : DF} (h : df.Wf) : (drop_duplicates df).Wf := by
  intro r hr
  exact h r (mem_of_mem_dedupFirstAux hr)

theorem selectMask_length_congr {α β : Type} :
    ∀ (mask : List Bool) (xs : List α) (ys : List β), xs.length = ys.length →
      (selectMask mask xs).length = (selectMask mask ys).length := by
  intro mask
  induction mask with
  | nil =>
    intro xs ys _
    cases xs <;> cases ys <;> simp [selectMask]
  | cons b bs ih =>
    intro xs ys hlen
    cases xs with
    | nil =>
      cases ys with
      | nil => rfl
      | cons y ys => simp at hlen
    | cons x xs =>
      cases ys with
      | nil => simp at hlen
      | cons y ys =>
        have hlen' : xs.length = ys.length := by simpa using hlen
        cases b <;> simp [selectMask, ih xs ys hlen']

theorem wf_dropSparseCols {df : DF} (h : df.Wf) : (dropSparseCols df).Wf := by
  intro r' hr'
  simp only [dropSparseCols, List.mem_map] at hr'
  obtain ⟨r, hr, rfl⟩ := hr'
  exact selectMask_length_congr (keepMask df) r df.cols (h r hr)

theorem wf_mapCol {df : DF} (name : String) (f : Cell → Cell) (h : df.Wf) :
    (mapCol name f df).Wf := by
  intro r' hr'
  rcases ho : idxOf? name df.cols with _ | i
  · simp only [mapCol, ho] at hr' ⊢
    exact h r' hr'
  · simp only [mapCol, ho, List.mem_map] at hr' ⊢
    obtain ⟨r, hr, rfl⟩ := hr'
    rw [mapRowBy_length]
    exact h r hr

theorem cellAt_mapCol (name : String) (f : Cell → Cell) (df : DF) (hwf : df.Wf)
    (i : Nat) (hi : i < df.cols.length) :
    ∀ r' ∈ (mapCol name f df).rows, ∃ r ∈ df.rows,
      cellAt r' i = (if df.cols[i]? = some name then f (cellAt r i) else cellAt r i) := by
  intro r' hr'
  rcases ho : idxOf? name df.cols with _ | j
  · simp only [mapCol, ho] at hr'
    refine ⟨r', hr', ?_⟩
    rw [if_neg]
    intro hcontra
    have hmem : name ∈ df.cols := by
      obtain ⟨hlt, hEq⟩ := List.getElem?_eq_some_iff.mp hcontra
      exact hEq ▸ List.getElem_mem hlt
    obtain ⟨k, hk⟩ := idxOf?_isSome_of_mem hmem
    rw [ho] at hk
    exact Option.noConfusion hk
  · simp only [mapCol, ho, List.mem_map] at hr'
    obtain ⟨r, hr, rfl⟩ := hr'
    exact ⟨r, hr, cellAt_mapRowBy name f df.cols r i (hwf r hr) hi⟩

theorem toNumericCell_shape {c : Cell} {v : Val} (h : toNumericCell c = some v) :
    ∃ q : ℚ, v = Val.num q := by
  cases c with
  | none => simp [toNumericCell] at h
  | some w =>
    rw [show toNumericCell (some w) = (toNumericVal w).map Val.num from rfl,
      Option.map_eq_some'] at h
    obtain ⟨q, _, rfl⟩ := h
    exact ⟨q, rfl⟩

/-- C3: whenever the cleaned table still has a `Purchase_Amount` column, that
column contains no nulls — every cell is a number; the fill maps a null
(including one produced by coercion of an unparseable entry) to exactly 1,
never to 0 and never leaves it null, and leaves every coerced numeric value
unchanged. -/
theorem purchase_amount_filled (df : DF) (hwf : df.Wf)
    (hmem : "Purchase_Amount" ∈ (clean_df df).cols) :
    (∀ c ∈ getColumn (clean_df df) "Purchase_Amount", ∃ q : ℚ, c = some (Val.num q)) ∧
    (∀ c : Cell, toNumericCell c = none →
      fillCell (Val.num 1) (toNumericCell c) = some (Val.num 1)) ∧
    (fillCell (Val.num 1) none ≠ some (Val.num 0) ∧ fillCell (Val.num 1) none ≠ none) ∧
    (∀ (c : Cell) (q : ℚ), toNumericCell c = some (Val.num q) →
      fillCell (Val.num 1) (toNumericCell c) = some (Val.num q)) := by
  refine ⟨?_, ?_, ⟨by decide, by decide⟩, ?_⟩
  · intro c hc
    have hw1 : (drop_duplicates df).Wf := wf_drop_duplicates hwf
    have hw2 : (dropSparseCols (drop_duplicates df)).Wf := wf_dropSparseCols hw1
    set d2 := dropSparseCols (drop_duplicates df) with hd2
    set e1 := mapCol "Purchase_Date" toDateCell d2 with he1
    set e2 := mapCol "Market_Price" toNumericCell e1 with he2
    set e3 := mapCol "Purchase_Amount" toNumericCell e2 with he3
    set e4 := mapCol "Rating" toNumericCell e3 with he4
    have hclean : clean_df df = mapCol "Purchase_Amount" (fillCell (Val.num 1)) e4 := rfl
    have hce1 : e1.cols = d2.cols := mapCol_cols _ _ _
    have hce2 : e2.cols = d2.cols := (mapCol_cols _ _ _).trans hce1
    have hce3 : e3.cols = d2.cols := (mapCol_cols _ _ _).trans hce2
    have hce4 : e4.cols = d2.cols := (mapCol_cols _ _ _).trans hce3
    have hccols : (clean_df df).cols = d2.cols := by rw [hclean, mapCol_cols, hce4]
    have hwe1 : e1.Wf := wf_mapCol _ _ hw2
    have hwe2 : e2.Wf := wf_mapCol _ _ hwe1
    have hwe3 : e3.Wf := wf_mapCol _ _ hwe2
    have hwe4 : e4.Wf := wf_mapCol _ _ hwe3
    have hmem2 : "Purchase_Amount" ∈ d2.cols := hccols ▸ hmem
    obtain ⟨i, hidx⟩ := idxOf?_isSome_of_mem hmem2
    have hgi : d2.cols[i]? = some "Purchase_Amount" := idxOf?_getElem hidx
    have hlt : i < d2.cols.length := idxOf?_lt_length hidx
    have hidxc : idxOf? "Purchase_Amount" (clean_df df).cols = some i := by
      rw [hccols]
      exact hidx
    simp only [getColumn, hidxc] at hc
    obtain ⟨r5, hr5, rfl⟩ := List.mem_map.mp hc
    have hlt4 : i < e4.cols.length := by
      rw [hce4]
      exact hlt
    have hr5' : r5 ∈ (mapCol "Purchase_Amount" (fillCell (Val.num 1)) e4).rows := by
      rw [← hclean]
      exact hr5
    obtain ⟨r4, hr4, h5⟩ :=
      cellAt_mapCol "Purchase_Amount" (fillCell (Val.num 1)) e4 hwe4 i hlt4 r5 hr5'
    rw [hce4, hgi, if_pos rfl] at h5
    have hlt3 : i < e3.cols.length := by
      rw [hce3]
      exact hlt
    obtain ⟨r3, hr3, h4⟩ := cellAt_mapCol "Rating" toNumericCell e3 hwe3 i hlt3 r4 hr4
    rw [hce3, hgi, if_neg (by decide)] at h4
    have hlt2 : i < e2.cols.length := by
      rw [hce2]
      exact hlt
    obtain ⟨r2, hr2, h3⟩ :=
      cellAt_mapCol "Purchase_Amount" toNumericCell e2 hwe2 i hlt2 r3 hr3
    rw [hce2, hgi, if_pos rfl] at h3
    rw [h5, h4, h3]
    rcases hnum : toNumericCell (cellAt r2 i) with _ | v
    · exact ⟨1, rfl⟩
    · obtain ⟨q, rfl⟩ := toNumericCell_shape hnum
      exact ⟨q, rfl⟩
  · intro c h
    rw [h]
    rfl
  · intro c q h
    rw [h]
    rfl

/-- A rectangular one-column `Purchase_Amount` table with a null, an
unparseable-free numeric string, and a number. -/
def dfFill : DF :=
  ⟨["Purchase_Amount"], [[none], [some (Val.str "7")], [some (Val.num 5)]]⟩

/-- C3 witness: on `dfFill` the cleaned `Purchase_Amount` column is all
numeric, and the cell-level fill facts hold. -/
theorem purchase_amount_filled_witness :
    (∀ c ∈ getColumn (clean_df dfFill) "Purchase_Amount", ∃ q : ℚ, c = some (Val.num q)) ∧
    (∀ c : Cell, toNumericCell c = none →
      fillCell (Val.num 1) (toNumericCell c) = some (Val.num 1)) ∧
    (fillCell (Val.num 1) none ≠ some (Val.num 0) ∧ fillCell (Val.num 1) none ≠ none) ∧
    (∀ (c : Cell) (q : ℚ), toNumericCell c = some (Val.num q) →
      fillCell (Val.num 1) (toNumericCell c) = some (Val.num q)) :=
  purchase_amount_filled dfFill (by unfold DF.Wf; decide) (by decide)

/-- The fixed Monday-first weekday bucket order used by the `reindex` call of
`create_weekday_analysis`. -/
def weekNames : List String :=
  ["Monday", "Tuesday", "Wednesday", "Thursday", "Friday", "Saturday", "Sunday"]

/-- Month offsets of Sakamoto's weekday algorithm. -/
def sakamotoT : List Nat := [0, 3, 2, 5, 0, 3, 5, 1, 4, 6, 2, 4]

/-- Day of the week of a calendar date, 0 = Sunday … 6 = Saturday
(Sakamoto's method), the model of `Timestamp.day_name()`. -/
def dayOfWeek (y m d : Nat) : Nat :=
  let y2 := if m < 3 then y - 1 else y
  (y2 + y2 / 4 - y2 / 100 + y2 / 400 + sakamotoT.getD (m - 1) 0 + d) % 7

/-- English weekday name of a date (`Series.dt.day_name()`). -/
def day_name (y m d : Nat) : String :=
  weekNames.getD ((dayOfWeek y m d + 6) % 7) ""

/-- Weekday name of a row's `Purchase_Date` cell (column position `di`);
null/NaT dates have no weekday and are dropped by the groupby. -/
def rowDayName (di : Nat) (r : List Cell) : Option String :=
  match cellAt r di with
  | some (Val.date y m d) => some (day_name y m d)
  | _ => none

/-- Numeric view of a cell used by `Series.sum()` (skipna): non-numeric or
null cells contribute 0. -/
def cellNumD (c : Cell) : ℚ :=
  match c with
  | some (Val.num q) => q
  | _ => 0

/-- The weekday aggregation of `create_weekday_analysis` (`utils.py`, also
inlined in `app.py`): guard on `Purchase_Date`/`Purchase_Amount` presence,
group purchase amounts by weekday name, reindex to the fixed Monday–Sunday
bucket list; a bucket with no transactions reindexes to NaN (`none`). -/
def create_weekday_analysis (df : DF) : Option (List (String × Option ℚ)) :=
  match idxOf? "Purchase_Date" df.cols, idxOf? "Purchase_Amount" df.cols with
  | some di, some ai =>
    some (weekNames.map (fun w =>
      let rs := df.rows.filter (fun r => decide (rowDayName di r = some w))
      (w, if rs.isEmpty then none
          else some ((rs.map (fun r => cellNumD (cellAt r ai))).sum))))
  | _, _ => none

/-- C5 amended: for every table that has `Purchase_Date` and
`Purchase_Amount` columns, the weekday aggregation returns exactly seven
buckets keyed Monday…Sunday in that fixed order, regardless of which
weekdays occur in the data. -/
theorem weekday_seven_buckets (df : DF)
    (hd : "Purchase_Date" ∈ df.cols) (ha : "Purchase_Amount" ∈ df.cols) :
    ∃ l, create_weekday_analysis df = some l ∧
      l.map Prod.fst =
        ["Monday", "Tuesday", "Wednesday", "Thursday", "Friday", "Saturday", "Sunday"] ∧
      l.length = 7 := by
  obtain ⟨di, hdi⟩ := idxOf?_isSome_of_mem hd
  obtain ⟨ai, hai⟩ := idxOf?_isSome_of_mem ha
  simp only [create_weekday_analysis, hdi, hai]
  exact ⟨_, rfl, rfl, rfl⟩

/-- A table with `Brand` and `Purchase_Amount` columns but no
`Purchase_Date`. -/
def dfBrandOnly : DF :=
  ⟨["Brand", "Purchase_Amount"], [[some (Val.str "Apple"), some (Val.num 5)]]⟩

/-- C5 counterexample: a table having `Brand` and `Purchase_Amount` (the
columns the claim names) but no `Purchase_Date` makes the weekday
aggregation return `none`, not seven buckets — the guard is on
`Purchase_Date` and `Purchase_Amount`. -/
theorem weekday_missing_date_none :
    "Brand" ∈ dfBrandOnly.cols ∧ "Purchase_Amount" ∈ dfBrandOnly.cols ∧
    create_weekday_analysis dfBrandOnly = none := by
  decide

/-- A one-row table with a purchase date and amount. -/
def dfDates : DF :=
  ⟨["Purchase_Date", "Purchase_Amount"], [[some (Val.date 2024 1 15), some (Val.num 3)]]⟩

/-- C5 witness: the weekday aggregation of `dfDates` yields the seven
Monday…Sunday buckets. -/
theorem weekday_seven_buckets_witness :
    ∃ l, create_weekday_analysis dfDates = some l ∧
      l.map Prod.fst =
        ["Monday", "Tuesday", "Wednesday", "Thursday", "Friday", "Saturday", "Sunday"] ∧
      l.length = 7 :=
  weekday_seven_buckets dfDates (by decide) (by decide)

/-- The distinct (non-null) brand keys of `df.groupby("Brand")`, in first
occurrence order; pandas drops null group keys. -/
def groupKeys (bi : Nat) (rows : List (List Cell)) : List Val :=
  dedupFirst (rows.filterMap (fun r => cellAt r bi))

/-- `df.groupby("Brand")["Purchase_Amount"].sum()` for one brand key:
total purchase amount of the rows carrying that key (nulls sum as 0,
skipna). -/
def groupSum (bi ai : Nat) (rows : List (List Cell)) (k : Val) : ℚ :=
  ((rows.filter (fun r => decide (cellAt r bi = some k))).map
    (fun r => cellNumD (cellAt r ai))).sum

/-- The per-brand totals `brand_share` of `create_market_share_chart`. -/
def brandShares (bi ai : Nat) (rows : List (List Cell)) : List (Val × ℚ) :=
  (groupKeys bi rows).map (fun k => (k, groupSum bi ai rows k))

/-- Insert into a list sorted by descending value (`sort_values(ascending=False)`). -/
def insertDesc (p : Val × ℚ) : List (Val × ℚ) → List (Val × ℚ)
  | [] => [p]
  | q :: qs => if q.2 ≤ p.2 then p :: q :: qs else q :: insertDesc p qs

/-- Sort brand totals by descending value. -/
def sortDesc : List (Val × ℚ) → List (Val × ℚ)
  | [] => []
  | p :: ps => insertDesc p (sortDesc ps)

/-- The grand total `brand_share.sum()` that `create_market_share_chart`
divides by: the sum of the per-brand totals. -/
def grandTotal (df : DF) : ℚ :=
  match idxOf? "Brand" df.cols, idxOf? "Purchase_Amount" df.cols with
  | some bi, some ai => ((brandShares bi ai df.rows).map Prod.snd).sum
  | _, _ => 0

/-- The data of `create_market_share_chart` (`utils.py`): `None` when
`Brand` or `Purchase_Amount` is missing, otherwise each brand's total as a
percentage of the grand total (`brand_share / brand_share.sum() * 100`),
sorted descending by total. -/
def create_market_share_chart (df : DF) : Option (List (Val × ℚ)) :=
  match idxOf? "Brand" df.cols, idxOf? "Purchase_Amount" df.cols with
  | some bi, some ai =>
    let shares := brandShares bi ai df.rows
    let total := (shares.map Prod.snd).sum
    some ((sortDesc shares).map (fun p => (p.1, p.2 / total * 100)))
  | _, _ => none

theorem insertDesc_perm (p : Val × ℚ) (l : List (Val × ℚ)) :
    (insertDesc p l).Perm (p :: l) := by
  induction l with
  | nil => exact List.Perm.refl _
  | cons q qs ih =>
    by_cases h : q.2 ≤ p.2
    · simp [insertDesc, h]
    · simp only [insertDesc, if_neg h]
      exact (ih.cons q).trans (List.Perm.swap p q qs)

theorem sortDesc_perm (l : List (Val × ℚ)) : (sortDesc l).Perm l := by
  induction l with
  | nil => exact List.Perm.refl _
  | cons p ps ih => exact (insertDesc_perm p (sortDesc ps)).trans (ih.cons p)

theorem sum_map_pct (l : List (Val × ℚ)) (T : ℚ) :
    ((l.map (fun p => (p.1, p.2 / T * 100))).map Prod.snd).sum =
      ((l.map Prod.snd).sum) / T * 100 := by
  induction l with
  | nil => simp
  | cons p ps ih =>
    simp only [List.map_cons, List.sum_cons, ih]
    ring

/-- C6: when `Brand` and `Purchase_Amount` are present and the grand total
that the chart divides by is positive, the market-share percentages sum to
exactly 100 (exact rational arithmetic). -/
theorem market_share_sums_to_100 (df : DF)
    (hb : "Brand" ∈ df.cols) (ha : "Purchase_Amount" ∈ df.cols)
    (hpos : 0 < grandTotal df) :
    ∃ l, create_market_share_chart df = some l ∧ (l.map Prod.snd).sum = 100 := by
  obtain ⟨bi, hbi⟩ := idxOf?_isSome_of_mem hb
  obtain ⟨ai, hai⟩ := idxOf?_isSome_of_mem ha
  have hT : grandTotal df = ((brandShares bi ai df.rows).map Prod.snd).sum := by
    simp [grandTotal, hbi, hai]
  simp only [create_market_share_chart, hbi, hai]
  refine ⟨_, rfl, ?_⟩
  rw [sum_map_pct]
  have hperm :
      ((sortDesc (brandShares bi ai df.rows)).map Prod.snd).Perm
        ((brandShares bi ai df.rows).map Prod.snd) :=
    (sortDesc_perm _).map _
  rw [hperm.sum_eq, ← hT, div_self (ne_of_gt hpos)]
  norm_num

/-- A two-brand table with amounts 30 and 70. -/
def dfShares : DF :=
  ⟨["Brand", "Purchase_Amount"],
    [[some (Val.str "A"), some (Val.num 30)], [some (Val.str "B"), some (Val.num 70)]]⟩

/-- C6 witness: on `dfShares` (grand total 100 > 0) the percentages sum to
100. -/
theorem market_share_sums_to_100_witness :
    ∃ l, create_market_share_chart dfShares = some l ∧ (l.map Prod.snd).sum = 100 :=
  market_share_sums_to_100 dfShares (by decide) (by decide)
    (by
      have h2 : grandTotal dfShares = ([([30] : List ℚ).sum, ([70] : List ℚ).sum]).sum := rfl
      rw [h2]
      norm_num [List.sum_cons, List.sum_nil])

/-- Market-share percentage of one named brand: look the brand up in the
chart data of `create_market_share_chart`. -/
def marketSharePct (df : DF) (b : String) : Option ℚ :=
  (create_market_share_chart df).bind
    (fun l => (l.find? (fun p => decide (p.1 = Val.str b))).map Prod.snd)

/-- A 100-row table: 10 Apple rows of amount 100 (total 1000) and 90
Samsung rows of amount 100 (total 9000). -/
def df100 : DF :=
  ⟨["Brand", "Purchase_Amount"],
    List.replicate 10 [some (Val.str "Apple"), some (Val.num 100)] ++
      List.replicate 90 [some (Val.str "Samsung"), some (Val.num 100)]⟩

/-- C7: end-to-end scenario — on the 100-row table `df100` (10 Apple rows
totalling 1000, 90 other-brand rows totalling 9000), the market-share
computation assigns Apple exactly 10 percent. -/
theorem apple_ten_percent :
    df100.rows.length = 100 ∧
    (getColumn df100 "Brand").count (some (Val.str "Apple")) = 10 ∧
    groupSum 0 1 df100.rows (Val.str "Apple") = 1000 ∧
    groupSum 0 1 df100.rows (Val.str "Samsung") = 9000 ∧
    grandTotal df100 = 10000 ∧
    marketSharePct df100 "Apple" = some 10 := by
  have hgA : groupSum 0 1 df100.rows (Val.str "Apple") = 1000 := by
    have h : groupSum 0 1 df100.rows (Val.str "Apple") =
        (List.replicate 10 (100 : ℚ)).sum := rfl
    rw [h, List.sum_replicate, nsmul_eq_mul]
    norm_num
  have hgS : groupSum 0 1 df100.rows (Val.str "Samsung") = 9000 := by
    have h : groupSum 0 1 df100.rows (Val.str "Samsung") =
        (List.replicate 90 (100 : ℚ)).sum := rfl
    rw [h, List.sum_replicate, nsmul_eq_mul]
    norm_num
  have hshares : brandShares 0 1 df100.rows =
      [(Val.str "Apple", groupSum 0 1 df100.rows (Val.str "Apple")),
       (Val.str "Samsung", groupSum 0 1 df100.rows (Val.str "Samsung"))] := rfl
  have hTexp : ((brandShares 0 1 df100.rows).map Prod.snd).sum =
      ([groupSum 0 1 df100.rows (Val.str "Apple"),
        groupSum 0 1 df100.rows (Val.str "Samsung")]).sum := rfl
  have hT : ((brandShares 0 1 df100.rows).map Prod.snd).sum = 10000 := by
    rw [hTexp, List.sum_cons, List.sum_cons, List.sum_nil, hgA, hgS]
    norm_num
  have htotal : grandTotal df100 = 10000 := by
    have h : grandTotal df100 = ((brandShares 0 1 df100.rows).map Prod.snd).sum := rfl
    rw [h, hT]
  have hsort : sortDesc (brandShares 0 1 df100.rows) =
      [(Val.str "Samsung", groupSum 0 1 df100.rows (Val.str "Samsung")),
       (Val.str "Apple", groupSum 0 1 df100.rows (Val.str "Apple"))] := by
    rw [hshares]
    simp only [sortDesc, insertDesc]
    rw [if_neg]
    simp only [hgA, hgS]
    norm_num
  have hpctA : groupSum 0 1 df100.rows (Val.str "Apple") /
      ((brandShares 0 1 df100.rows).map Prod.snd).sum * 100 = 10 := by
    rw [hgA, hT]
    norm_num
  have hpctS : groupSum 0 1 df100.rows (Val.str "Samsung") /
      ((brandShares 0 1 df100.rows).map Prod.snd).sum * 100 = 90 := by
    rw [hgS, hT]
    norm_num
  have hchart : create_market_share_chart df100 =
      some [(Val.str "Samsung", 90), (Val.str "Apple", 10)] := by
    simp only [create_market_share_chart,
      show idxOf? "Brand" df100.cols = some 0 from rfl,
      show idxOf? "Purchase_Amount" df100.cols = some 1 from rfl]
    rw [hsort]
    simp only [List.map_cons, List.map_nil]
    rw [hpctA, hpctS]
  refine ⟨rfl, rfl, hgA, hgS, htotal, ?_⟩
  simp only [marketSharePct, hchart]
  rfl

/-- Lower-cased characters of a string (`Series.str.lower()` /
`case=False`). -/
def strLower (s : String) : List Char := s.data.map Char.toLower

/-- Substring test on character lists (`Series.str.contains(pat)`). -/
def hasInfix (pat : List Char) : List Char → Bool
  | [] => pat.isEmpty
  | c :: rest => pat.isPrefixOf (c :: rest) || hasInfix pat rest

/-- The dashboard-loader brand test
(`df["Brand"].str.lower() == "apple"`, `utils.py` line 51 / `app.py`
line 104): exact case-insensitive equality on the Brand field; a null or
non-string brand never matches. -/
def rowBrandEqApple (df : DF) (r : List Cell) : Bool :=
  match idxOf? "Brand" df.cols with
  | some bi =>
    match cellAt r bi with
    | some (Val.str s) => decide (strLower s = "apple".data)
    | _ => false
  | none => false

/-- The rows the dashboard loader keeps as Apple rows. -/
def apple_filter_eq (df : DF) : List (List Cell) :=
  df.rows.filter (fun r => rowBrandEqApple df r)

/-- One field's case-insensitive substring test for "apple"
(`.fillna('').str.contains('apple', case=False)` in the batch scripts). -/
def rowContainsApple (i : Option Nat) (r : List Cell) : Bool :=
  match i with
  | some ci =>
    match cellAt r ci with
    | some (Val.str s) => hasInfix "apple".data (strLower s)
    | _ => false
  | none => false

/-- The rows the batch forecast scripts (`apple_ratings.py`,
`price_elasticity.py`, `product_domination.py`) keep:
`mask_brand | mask_product`, substring match on Brand or Product_Name. -/
def apple_filter_substr (df : DF) : List (List Cell) :=
  df.rows.filter (fun r =>
    rowContainsApple (idxOf? "Brand" df.cols) r ||
      rowContainsApple (idxOf? "Product_Name" df.cols) r)

/-- A table whose single row has Brand "Apple Inc": the substring filter
keeps it, the equality filter does not. -/
def dfAppleInc : DF :=
  ⟨["Brand", "Product_Name"], [[some (Val.str "Apple Inc"), some (Val.str "iPhone 15")]]⟩

/-- C8: the brand-matching rule is inconsistent across scripts — every row
the equality filter keeps is also kept by the substring filter, and on
`dfAppleInc` the substring filter keeps strictly more rows (all of them)
than the equality filter (none). -/
theorem brand_filter_inconsistent :
    (∀ (df : DF) (r : List Cell), r ∈ apple_filter_eq df → r ∈ apple_filter_substr df) ∧
    apple_filter_eq dfAppleInc = [] ∧
    apple_filter_substr dfAppleInc = dfAppleInc.rows ∧
    dfAppleInc.rows ≠ [] := by
  refine ⟨?_, by decide, by decide, by decide⟩
  intro df r hr
  rw [apple_filter_eq, List.mem_filter] at hr
  obtain ⟨hmem, hpred⟩ := hr
  rw [apple_filter_substr, List.mem_filter]
  refine ⟨hmem, ?_⟩
  rw [Bool.or_eq_true]
  left
  rcases hbi : idxOf? "Brand" df.cols with _ | bi
  · simp only [rowBrandEqApple, hbi] at hpred
    exact absurd hpred (by simp)
  · simp only [rowBrandEqApple, hbi] at hpred
    rcases hcell : cellAt r bi with _ | v
    · simp only [hcell] at hpred
      exact absurd hpred (by simp)
    · cases v with
      | str s =>
        simp only [hcell] at hpred
        have hs : strLower s = "apple".data := of_decide_eq_true hpred
        simp only [rowContainsApple, hbi, hcell, hs]
        decide
      | num q =>
        simp only [hcell] at hpred
        exact absurd hpred (by simp)
      | date y m d =>
        simp only [hcell] at hpred
        exact absurd hpred (by simp)
      | boolv b =>
        simp only [hcell] at hpred
        exact absurd hpred (by simp)

/-- A one-row table whose Brand is exactly "Apple". -/
def dfApple : DF :=
  ⟨["Brand", "Product_Name"], [[some (Val.str "Apple"), some (Val.str "Watch")]]⟩

/-- C8 witness: a row kept by the equality filter is kept by the substring
filter. -/
theorem brand_filter_inconsistent_witness :
    [some (Val.str "Apple"), some (Val.str "Watch")] ∈ apple_filter_substr dfApple :=
  brand_filter_inconsistent.1 dfApple _ (by decide)

/-- The Rating-column guard of `apple_ratings.py` (lines 16–17): the batch
script raises `ValueError` when the dataset has no `Rating` column; a raise
is modelled as `Except.error`. -/
def apple_ratings_check (df : DF) : Except String DF :=
  if (idxOf? "Rating" df.cols).isSome then Except.ok df
  else Except.error "The dataset does not contain a Rating column."

/-- C9 amended: the dashboard chart aggregations return `none` when a
required column is absent, but the batch ratings script raises (errors)
when `Rating` is absent rather than returning an unavailable result. -/
theorem missing_column_short_circuit (df : DF) :
    (("Brand" ∉ df.cols ∨ "Purchase_Amount" ∉ df.cols) →
      create_market_share_chart df = none) ∧
    (("Purchase_Date" ∉ df.cols ∨ "Purchase_Amount" ∉ df.cols) →
      create_weekday_analysis df = none) ∧
    ("Rating" ∉ df.cols → ∃ msg, apple_ratings_check df = Except.error msg) := by
  refine ⟨?_, ?_, ?_⟩
  · intro h
    rcases h with h | h
    · have hn := (idxOf?_eq_none_iff _ _).mpr h
      simp [create_market_share_chart, hn]
    · have hn := (idxOf?_eq_none_iff _ _).mpr h
      cases hb : idxOf? "Brand" df.cols <;> simp [create_market_share_chart, hb, hn]
  · intro h
    rcases h with h | h
    · have hn := (idxOf?_eq_none_iff _ _).mpr h
      simp [create_weekday_analysis, hn]
    · have hn := (idxOf?_eq_none_iff _ _).mpr h
      cases hd : idxOf? "Purchase_Date" df.cols <;>
        simp [create_weekday_analysis, hd, hn]
  · intro h
    have hn := (idxOf?_eq_none_iff _ _).mpr h
    refine ⟨"The dataset does not contain a Rating column.", ?_⟩
    simp [apple_ratings_check, hn]

/-- A table with no `Rating` column. -/
def dfNoRating : DF :=
  ⟨["Brand", "Purchase_Date"], [[some (Val.str "Apple"), some (Val.date 2024 1 1)]]⟩

/-- C9 counterexample: on `dfNoRating` the batch ratings aggregation raises
(`ValueError`, modelled as `Except.error`) instead of returning an
unavailable result, contradicting the claim that every aggregation
short-circuits on a missing column. -/
theorem ratings_script_raises :
    "Rating" ∉ dfNoRating.cols ∧
    apple_ratings_check dfNoRating =
      Except.error "The dataset does not contain a Rating column." := by
  exact ⟨by decide, rfl⟩

/-- A column-free table. -/
def dfNoCols : DF := ⟨[], []⟩

/-- C9 witness: on the column-free table, both chart aggregations return
`none` and the ratings check errors. -/
theorem missing_column_short_circuit_witness :
    create_market_share_chart dfNoCols = none ∧
    create_weekday_analysis dfNoCols = none ∧
    (∃ msg, apple_ratings_check dfNoCols = Except.error msg) :=
  ⟨(missing_column_short_circuit dfNoCols).1 (Or.inl (by decide)),
   (missing_column_short_circuit dfNoCols).2.1 (Or.inl (by decide)),
   (missing_column_short_circuit dfNoCols).2.2 (by decide)⟩

/-- Python division, which raises `ZeroDivisionError` on a zero denominator. -/
def pyDiv (a b : ℚ) : Except String ℚ :=
  if b = 0 then Except.error "ZeroDivisionError" else Except.ok (a / b)

/-- `Series.sum()` of the numeric values of a named column (skipna). -/
def colSum (df : DF) (name : String) : ℚ :=
  match idxOf? name df.cols with
  | some i =>
    (df.rows.filterMap (fun r =>
      match cellAt r i with
      | some (Val.num q) => some q
      | _ => none)).sum
  | none => 0

/-- `Series.mean()` of a named column: the mean of the non-null numeric
values, NaN (`none`) when there are none. -/
def colMean (df : DF) (name : String) : Option ℚ :=
  match idxOf? name df.cols with
  | some i =>
    let vals := df.rows.filterMap (fun r =>
      match cellAt r i with
      | some (Val.num q) => some q
      | _ => none)
    if vals.length = 0 then none else some (vals.sum / (vals.length : ℚ))
  | none => none

/-- The metrics dictionary of `calculate_key_metrics`. -/
structure Metrics where
  total_apple_products : Nat
  apple_percentage : ℚ
  avg_rating : Option ℚ
  total_sales : ℚ
  avg_price : Option ℚ

/-- `calculate_key_metrics(df, apple_df)` (`utils.py`): the Apple share of
rows is `len(apple_df) / len(df) * 100` guarded by `len(df) > 0`, the other
metrics fall back to 0 when their column is absent. -/
def calculate_key_metrics (df adf : DF) : Except String Metrics := do
  let pct ←
    if 0 < df.rows.length then
      (pyDiv ((adf.rows.length : ℚ)) ((df.rows.length : ℚ))).map (fun x => x * 100)
    else Except.ok 0
  Except.ok
    { total_apple_products := adf.rows.length
      apple_percentage := pct
      avg_rating :=
        if (idxOf? "Rating" adf.cols).isSome then colMean adf "Rating" else some 0
      total_sales :=
        if (idxOf? "Purchase_Amount" adf.cols).isSome then colSum adf "Purchase_Amount" else 0
      avg_price :=
        if (idxOf? "Market_Price" adf.cols).isSome then colMean adf "Market_Price" else some 0 }

/-- Success test for a fallible computation. -/
def exceptIsOk {ε α : Type} : Except ε α → Bool
  | .ok _ => true
  | .error _ => false

/-- C10: `calculate_key_metrics` is total and division-safe — it returns a
metrics dictionary without raising on every pair of tables, and when the
full table has zero rows the apple-percentage metric is 0 (the division is
guarded and never performed on a zero denominator). -/
theorem calculate_key_metrics_total (df adf : DF) :
    exceptIsOk (calculate_key_metrics df adf) = true ∧
    (df.rows.length = 0 →
      (calculate_key_metrics df adf).map Metrics.apple_percentage = Except.ok 0) := by
  by_cases h : 0 < df.rows.length
  · constructor
    · have hne : ((df.rows.length : ℚ)) ≠ 0 := by
        simp only [ne_eq, Nat.cast_eq_zero]
        omega
      simp [calculate_key_metrics, if_pos h, pyDiv, hne, Except.map, exceptIsOk,
        bind, Except.bind]
    · intro h0
      omega
  · have h0 : df.rows.length = 0 := by omega
    constructor
    · simp [calculate_key_metrics, if_neg h, exceptIsOk, bind, Except.bind]
    · intro _
      simp [calculate_key_metrics, if_neg h, Except.map, bind, Except.bind]

/-- A table with no rows. -/
def dfEmptyRows : DF := ⟨["Brand"], []⟩

/-- C10 witness: on the zero-row table, the metrics computation succeeds and
the apple percentage is 0. -/
theorem calculate_key_metrics_total_witness :
    exceptIsOk (calculate_key_metrics dfEmptyRows dfEmptyRows) = true ∧
    (calculate_key_metrics dfEmptyRows dfEmptyRows).map Metrics.apple_percentage =
      Except.ok 0 :=
  ⟨(calculate_key_metrics_total dfEmptyRows dfEmptyRows).1,
   (calculate_key_metrics_total dfEmptyRows dfEmptyRows).2 rfl⟩

/-- C2 counterexample: the sparse-column drop runs before type coercion, so
the cleaned table can contain a column that is more than 50% null — on
`dfCoerceCollapse` the cleaned table keeps `Market_Price` with every cell
null (null count 2 of 2 rows), refuting the claim that no column of the
cleaned table has a null fraction above 50%. -/
theorem cleaned_column_mostly_null :
    "Market_Price" ∈ (clean_df dfCoerceCollapse).cols ∧
    getColumn (clean_df dfCoerceCollapse) "Market_Price" = [none, none] ∧
    2 * nullCount (clean_df dfCoerceCollapse).rows 0 >
      (clean_df dfCoerceCollapse).rows.length := by
  decide
